import Mathlib

/-!
A verification development for the expense-tracker repository
(src/app.rs, src/settings.rs).  The definitions below are a shallow
embedding of the Rust source:

* `calcEval` embeds the expression evaluator `calc` in src/app.rs.
  Rust `f64` values are modelled by `EFloat`: exact rationals extended
  with the IEEE special values `posInf`, `negInf` and `nan`.  All
  numeric computations appearing in the verified properties are exactly
  representable in binary64, so replacing rounded binary64 arithmetic by
  exact rational arithmetic does not change any of the observed results.
  IEEE signed zeros are collapsed to the single rational zero: in this
  program the right operand of every combination step is a freshly
  parsed (hence non-negative, unsigned) literal, so a negative zero can
  never reach a position where its sign is observable.
* `parseNum` embeds Rust `str::parse::<f64>()` restricted to the token
  alphabet the tokenizer of `calc` can produce (decimal digits, `.` and
  `,`): such a string parses iff it contains no comma, at most one dot
  and at least one digit.
* `TitleCompleter` embeds the autocomplete memo struct of src/app.rs.
* `Settings` embeds the lookup interface of src/settings.rs.
* `create_page_properties`, `runSessionAux` embed the record builder and
  the session loop of `App`, with the external collaborators (inquire
  prompts, the Notion HTTP API) turned into explicit per-iteration
  inputs and with the externally observable effects (fetch invocations,
  date-prompt configurations, submitted records) returned as traces.
-/

deriving instance DecidableEq for Except

/-- The four arithmetic operators of `calc` (enum `Operator` in src/app.rs). -/
inductive Operator where
  | add
  | sub
  | mul
  | div
deriving DecidableEq

/-- `Operator::from(&char)` from src/app.rs: the four operator characters. -/
def Operator.fromChar (c : Char) : Option Operator :=
  if c = '+' then some .add
  else if c = '-' then some .sub
  else if c = '*' then some .mul
  else if c = '/' then some .div
  else none

/-- Exact rational addition, written through the smart constructor
`mkRat` so that the kernel can evaluate it (Mathlib's `Rat.add` is
`@[irreducible]`); `finAdd_eq` below proves it equal to `+` on `ℚ`. -/
def finAdd (a b : ℚ) : ℚ := mkRat (a.num * b.den + b.num * a.den) (a.den * b.den)

/-- Exact rational multiplication through `mkRat`; equals `*` on `ℚ`. -/
def finMul (a b : ℚ) : ℚ := mkRat (a.num * b.num) (a.den * b.den)

/-- Exact rational negation through `mkRat`; equals `-·` on `ℚ`. -/
def finNeg (a : ℚ) : ℚ := mkRat (-a.num) a.den

/-- Exact rational division through `Rat.divInt`; equals `/` on `ℚ`. -/
def finDiv (a b : ℚ) : ℚ := Rat.divInt (a.num * b.den) (a.den * b.num)

theorem num_eq_mul_den (a : ℚ) : (a.num : ℚ) = a * a.den := by
  have ha : (a.den : ℚ) ≠ 0 := by exact_mod_cast a.den_nz
  have h := Rat.num_div_den a
  rw [div_eq_iff ha] at h
  exact h

theorem finAdd_eq (a b : ℚ) : finAdd a b = a + b := by
  have ha : (a.den : ℚ) ≠ 0 := by exact_mod_cast a.den_nz
  have hb : (b.den : ℚ) ≠ 0 := by exact_mod_cast b.den_nz
  rw [finAdd, Rat.mkRat_eq_div]
  push_cast
  rw [num_eq_mul_den a, num_eq_mul_den b, div_eq_iff (mul_ne_zero ha hb)]
  ring

theorem finMul_eq (a b : ℚ) : finMul a b = a * b := by
  have ha : (a.den : ℚ) ≠ 0 := by exact_mod_cast a.den_nz
  have hb : (b.den : ℚ) ≠ 0 := by exact_mod_cast b.den_nz
  rw [finMul, Rat.mkRat_eq_div]
  push_cast
  rw [num_eq_mul_den a, num_eq_mul_den b, div_eq_iff (mul_ne_zero ha hb)]
  ring

theorem finNeg_eq (a : ℚ) : finNeg a = -a := by
  have ha : (a.den : ℚ) ≠ 0 := by exact_mod_cast a.den_nz
  rw [finNeg, Rat.mkRat_eq_div]
  push_cast
  rw [num_eq_mul_den a, div_eq_iff ha]
  ring

theorem finDiv_eq (a b : ℚ) : finDiv a b = a / b := by
  have ha : (a.den : ℚ) ≠ 0 := by exact_mod_cast a.den_nz
  have hb : (b.den : ℚ) ≠ 0 := by exact_mod_cast b.den_nz
  rw [finDiv, Rat.divInt_eq_div]
  push_cast
  rcases eq_or_ne b 0 with rfl | hb0
  · simp
  · rw [num_eq_mul_den a, num_eq_mul_den b,
      div_eq_div_iff (mul_ne_zero ha (mul_ne_zero hb0 hb)) hb0]
    ring

/-- Model of Rust `f64`: exact rationals plus the IEEE special values. -/
inductive EFloat where
  | fin : ℚ → EFloat
  | posInf : EFloat
  | negInf : EFloat
  | nan : EFloat
deriving DecidableEq

/-- `f64::is_finite`. -/
def EFloat.isFinite : EFloat → Bool
  | .fin _ => true
  | _ => false

/-- IEEE negation on the model. -/
def EFloat.neg : EFloat → EFloat
  | .fin q => .fin (finNeg q)
  | .posInf => .negInf
  | .negInf => .posInf
  | .nan => .nan

/-- IEEE addition on the model (exact on finite operands). -/
def EFloat.add : EFloat → EFloat → EFloat
  | .nan, _ => .nan
  | _, .nan => .nan
  | .fin a, .fin b => .fin (finAdd a b)
  | .fin _, .posInf => .posInf
  | .fin _, .negInf => .negInf
  | .posInf, .fin _ => .posInf
  | .negInf, .fin _ => .negInf
  | .posInf, .posInf => .posInf
  | .negInf, .negInf => .negInf
  | .posInf, .negInf => .nan
  | .negInf, .posInf => .nan

/-- IEEE subtraction on the model. -/
def EFloat.sub (x y : EFloat) : EFloat := x.add y.neg

/-- IEEE multiplication on the model (exact on finite operands). -/
def EFloat.mul : EFloat → EFloat → EFloat
  | .nan, _ => .nan
  | _, .nan => .nan
  | .fin a, .fin b => .fin (finMul a b)
  | .fin a, .posInf => if a = 0 then .nan else if 0 < a then .posInf else .negInf
  | .fin a, .negInf => if a = 0 then .nan else if 0 < a then .negInf else .posInf
  | .posInf, .fin b => if b = 0 then .nan else if 0 < b then .posInf else .negInf
  | .negInf, .fin b => if b = 0 then .nan else if 0 < b then .negInf else .posInf
  | .posInf, .posInf => .posInf
  | .negInf, .negInf => .posInf
  | .posInf, .negInf => .negInf
  | .negInf, .posInf => .negInf

/-- IEEE division on the model: a zero divisor yields an infinity (or
`nan` for zero over zero), never an error, exactly as Rust `f64`
division behaves in `calc`. -/
def EFloat.div : EFloat → EFloat → EFloat
  | .nan, _ => .nan
  | _, .nan => .nan
  | .fin a, .fin b =>
      if b = 0 then (if a = 0 then .nan else if 0 < a then .posInf else .negInf)
      else .fin (finDiv a b)
  | .fin _, .posInf => .fin 0
  | .fin _, .negInf => .fin 0
  | .posInf, .fin b => if 0 ≤ b then .posInf else .negInf
  | .negInf, .fin b => if 0 ≤ b then .negInf else .posInf
  | .posInf, .posInf => .nan
  | .posInf, .negInf => .nan
  | .negInf, .posInf => .nan
  | .negInf, .negInf => .nan

/-- The `match op { Add => lhs + rhs, ... }` combination step of `calc`. -/
def applyOp (o : Operator) (lhs rhs : EFloat) : EFloat :=
  match o with
  | .add => lhs.add rhs
  | .sub => lhs.sub rhs
  | .mul => lhs.mul rhs
  | .div => lhs.div rhs

/-- Numeric value of a decimal digit character. -/
def digitVal (c : Char) : ℕ := c.toNat - 48

/-- Value of a digit string read in base 10. -/
def digitsValN (l : List Char) : ℕ :=
  l.foldl (fun acc c => acc * 10 + digitVal c) 0

/-- Rust `str::parse::<f64>()` on the token alphabet of `calc`'s
tokenizer (digits, `.` and `,`): succeeds iff the string contains no
comma, at most one dot and at least one digit; the value is read as
ordinary decimal notation.  A comma is NOT accepted as a decimal
separator by Rust's float parser. -/
def parseNum (l : List Char) : Option ℚ :=
  if ',' ∈ l then none
  else
    match l.span (fun c => c != '.') with
    | (ip, []) =>
        if ip ≠ [] ∧ ip.all Char.isDigit then some ((digitsValN ip : ℚ)) else none
    | (ip, _dot :: fp) =>
        if '.' ∈ fp then none
        else if (ip ≠ [] ∨ fp ≠ []) ∧ ip.all Char.isDigit ∧ fp.all Char.isDigit then
          some (mkRat ((digitsValN ip * 10 ^ fp.length + digitsValN fp : ℕ) : ℤ)
            (10 ^ fp.length))
        else none

/-- The two failure modes of `calc`: a malformed numeric token
(`ParseFloatError` propagated by `?`) and the final
`eyre::Error::msg("Not expeceted")`. -/
inductive CalcError where
  | parseError
  | notExpected
deriving DecidableEq

/-- The mutable loop state of `calc`: the pending operator `op`, the
token currently being scanned (`pos` in the Rust source, represented by
the accumulated characters of the token), and the operand `stack`. -/
structure CalcState where
  op : Option Operator
  curr : Option (List Char)
  stack : List EFloat
deriving DecidableEq

/-- The `if op.is_some() && stack.len() == 2` combination inside `calc`. -/
def combine (op : Option Operator) (stack : List EFloat) : List EFloat :=
  match op, stack with
  | some o, [lhs, rhs] => [applyOp o lhs rhs]
  | _, _ => stack

/-- One iteration of the `for (i, c) in expresion.char_indices()` loop of
`calc`.  A digit opens a token when none is open; a character that is
neither a digit nor `,` nor `.` flushes the open token (parsing it and
combining when an operator is pending and two operands are on the
stack) and then unconditionally re-derives the pending operator from the
character itself; any other character extends the open token or is
skipped. -/
def calcStep (st : CalcState) (c : Char) : Except CalcError CalcState :=
  if c.isDigit ∧ st.curr = none then
    .ok { st with curr := some [c] }
  else if ¬ c.isDigit ∧ c ≠ ',' ∧ c ≠ '.' then
    match st.curr with
    | some tok =>
        match parseNum tok with
        | none => .error .parseError
        | some q => .ok ⟨Operator.fromChar c, none, combine st.op (st.stack ++ [.fin q])⟩
    | none => .ok { st with op := Operator.fromChar c }
  else
    match st.curr with
    | some tok => .ok { st with curr := some (tok ++ [c]) }
    | none => .ok st

/-- The code after the loop of `calc`: exactly two operands with a
pending operator are combined; a single operand with no pending operator
is returned; everything else is the "Not expeceted" error. -/
def calcFinal (op : Option Operator) (stack : List EFloat) : Except CalcError EFloat :=
  match op, stack with
  | some o, [lhs, rhs] => .ok (applyOp o lhs rhs)
  | none, [x] => .ok x
  | _, _ => .error .notExpected

/-- End-of-input handling of `calc`: flush a still-open token (without
combining, as in the source), then apply `calcFinal`. -/
def calcFinish (st : CalcState) : Except CalcError EFloat :=
  match st.curr with
  | some tok =>
      match parseNum tok with
      | none => .error .parseError
      | some q => calcFinal st.op (st.stack ++ [.fin q])
  | none => calcFinal st.op st.stack

/-- `calc` from src/app.rs, on a list of characters. -/
def calcEvalL (cs : List Char) : Except CalcError EFloat :=
  match cs.foldlM calcStep ⟨none, none, []⟩ with
  | .error e => .error e
  | .ok st => calcFinish st

/-- `calc` from src/app.rs. -/
def calcEval (s : String) : Except CalcError EFloat := calcEvalL s.data

/-- A list of characters that the tokenizer of `calc` reads as one
operand token when scanning begins at its first character: it starts
with a digit and consists only of digits and the separators `.`, `,`. -/
def goodToken (tok : List Char) : Prop :=
  tok ≠ [] ∧ tok.headI.isDigit ∧ ∀ c ∈ tok, c.isDigit ∨ c = ',' ∨ c = '.'

instance : DecidablePred goodToken := fun tok => by
  unfold goodToken
  infer_instance

theorem ok_bind {α β : Type} (a : α) (f : α → Except CalcError β) :
    (Except.ok a >>= f : Except CalcError β) = f a := rfl

theorem pure_eq_ok {α : Type} (a : α) : (pure a : Except CalcError α) = .ok a := rfl

theorem fromChar_not_digit {c : Char} {p : Operator} (h : Operator.fromChar c = some p) :
    ¬ c.isDigit ∧ c ≠ ',' ∧ c ≠ '.' := by
  by_cases h1 : c = '+'
  · subst h1; exact ⟨by decide, by decide, by decide⟩
  by_cases h2 : c = '-'
  · subst h2; exact ⟨by decide, by decide, by decide⟩
  by_cases h3 : c = '*'
  · subst h3; exact ⟨by decide, by decide, by decide⟩
  by_cases h4 : c = '/'
  · subst h4; exact ⟨by decide, by decide, by decide⟩
  exfalso
  rw [Operator.fromChar, if_neg h1, if_neg h2, if_neg h3, if_neg h4] at h
  cases h

theorem calc_foldlM_append (l1 l2 : List Char) (s s1 : CalcState)
    (h : l1.foldlM calcStep s = .ok s1) :
    (l1 ++ l2).foldlM calcStep s = l2.foldlM calcStep s1 := by
  induction l1 generalizing s with
  | nil =>
      have h' : (Except.ok s : Except CalcError CalcState) = .ok s1 := h
      cases h'
      rfl
  | cons a l ih =>
      rw [List.foldlM_cons] at h
      rw [List.cons_append, List.foldlM_cons]
      cases hstep : calcStep s a with
      | error e =>
          rw [hstep] at h
          have h'' : (Except.error e : Except CalcError CalcState) = .ok s1 := h
          cases h''
      | ok s2 =>
          rw [hstep, ok_bind] at h
          rw [ok_bind]
          exact ih s2 h

/-- Scanning a digit or a decimal separator while a token is open just
extends the open token. -/
theorem calc_foldlM_seps (cs : List Char)
    (hcs : ∀ c ∈ cs, c.isDigit ∨ c = ',' ∨ c = '.') :
    ∀ (o : Option Operator) (k : List EFloat) (pre : List Char),
    cs.foldlM calcStep ⟨o, some pre, k⟩ = .ok ⟨o, some (pre ++ cs), k⟩ := by
  induction cs with
  | nil =>
      intro o k pre
      rw [List.append_nil]
      rfl
  | cons c cs ih =>
      intro o k pre
      rw [List.foldlM_cons]
      have hstep : calcStep ⟨o, some pre, k⟩ c = .ok ⟨o, some (pre ++ [c]), k⟩ := by
        rcases hcs c (by simp) with hd | hy | hy
        · simp [calcStep, hd]
        · subst hy
          have hnd : (',' : Char).isDigit = false := by decide
          simp [calcStep, hnd]
        · subst hy
          have hnd : ('.' : Char).isDigit = false := by decide
          simp [calcStep, hnd]
      rw [hstep, ok_bind]
      have := ih (fun c hc => hcs c (by simp [hc])) o k (pre ++ [c])
      simpa using this

/-- Scanning a well-formed operand token with no token open accumulates
exactly that token, leaving operator and stack untouched. -/
theorem calc_foldlM_token (tok : List Char) (h : goodToken tok)
    (o : Option Operator) (k : List EFloat) :
    tok.foldlM calcStep ⟨o, none, k⟩ = .ok ⟨o, some tok, k⟩ := by
  obtain ⟨hne, hd, hall⟩ := h
  match tok, hne with
  | d :: rest, _ =>
    have hdd : d.isDigit := by simpa using hd
    rw [List.foldlM_cons]
    have hstep : calcStep ⟨o, none, k⟩ d = .ok ⟨o, some [d], k⟩ := by
      simp [calcStep, hdd]
    rw [hstep, ok_bind]
    have := calc_foldlM_seps rest (fun c hc => hall c (by simp [hc])) o k [d]
    simpa using this

/-- Flushing an open token at a character that is not a digit and not a
separator: the token is parsed and pushed, a pending operator with two
operands combines, and the pending operator is re-derived from the
character. -/
theorem calcStep_flush (o : Option Operator) (k : List EFloat) (tok : List Char)
    (q : ℚ) (c : Char) (hq : parseNum tok = some q) (hcd : ¬ c.isDigit)
    (hc1 : c ≠ ',') (hc2 : c ≠ '.') :
    calcStep ⟨o, some tok, k⟩ c =
      .ok ⟨Operator.fromChar c, none, combine o (k ++ [.fin q])⟩ := by
  simp [calcStep, hcd, hc1, hc2, hq]

/-- C1: with numeric literals a, b, c and operators OP1, OP2 among
`+ - * /`, `calc` evaluates `a OP1 b OP2 c` as `((a OP1 b) OP2 c)`,
strictly left-to-right with no precedence; in particular
`calc("10+10*2")` is `40.0` (not `30.0`) and `calc("10-30+10+10+3")`
is `3.0`. -/
theorem calc_left_fold_spec :
    (∀ (ta tb tc : List Char) (c1 c2 : Char) (p1 p2 : Operator) (qa qb qc : ℚ),
      goodToken ta → goodToken tb → goodToken tc →
      parseNum ta = some qa → parseNum tb = some qb → parseNum tc = some qc →
      Operator.fromChar c1 = some p1 → Operator.fromChar c2 = some p2 →
      calcEvalL (ta ++ c1 :: (tb ++ c2 :: tc)) =
        .ok (applyOp p2 (applyOp p1 (.fin qa) (.fin qb)) (.fin qc))) ∧
    calcEval ("10+10*2") = .ok (.fin 40) ∧
    calcEval ("10-30+10+10+3") = .ok (.fin 3) := by
  refine ⟨?_, by decide, by decide⟩
  intro ta tb tc c1 c2 p1 p2 qa qb qc hta htb htc hpa hpb hpc h1 h2
  obtain ⟨hd1, hc1, hc1'⟩ := fromChar_not_digit h1
  obtain ⟨hd2, hc2, hc2'⟩ := fromChar_not_digit h2
  unfold calcEvalL
  rw [calc_foldlM_append _ _ _ _ (calc_foldlM_token ta hta none []),
    List.foldlM_cons, calcStep_flush _ _ _ _ _ hpa hd1 hc1 hc1', ok_bind, h1,
    calc_foldlM_append _ _ _ _ (calc_foldlM_token tb htb (some p1) _),
    List.foldlM_cons, calcStep_flush _ _ _ _ _ hpb hd2 hc2 hc2', ok_bind, h2,
    calc_foldlM_token tc htc (some p2) _]
  simp [calcFinish, hpc, calcFinal, combine]

/-- Witness for `calc_left_fold_spec`: the general left-fold statement
applied to the concrete expression `2+3*4`, which evaluates to
`(2+3)*4 = 20`. -/
theorem calc_left_fold_spec_witness :
    calcEvalL (['2'] ++ '+' :: (['3'] ++ '*' :: ['4'])) =
      .ok (applyOp .mul (applyOp .add (.fin 2) (.fin 3)) (.fin 4)) :=
  calc_left_fold_spec.1 ['2'] ['3'] ['4'] '+' '*' .add .mul 2 3 4
    (by decide) (by decide) (by decide) (by decide) (by decide) (by decide)
    (by decide) (by decide)

theorem parseNum_comma_none (tok : List Char) (h : ',' ∈ tok) : parseNum tok = none := by
  unfold parseNum
  rw [if_pos h]

/-- C5 counterexample: the claim says `,` is read as a decimal point (so
`calc("10,5")` is `10.5`) and that stray characters are merely ignored
(so `calc("10 + 10")` still evaluates); on the code both inputs fail:
the comma makes the numeric token unparseable, and the space after the
`+` overwrites the pending operator with `None`. -/
theorem tokenizer_stray_chars_cex :
    calcEval ("10,5") = .error .parseError ∧
    calcEval ("10 + 10") = .error .notExpected :=
  ⟨by decide, by decide⟩

/-- C5 amended: a maximal digit run with `.` or `,` forms one operand
token, but `,` is rejected by the numeric parse (so any expression whose
single token contains a comma is a parse error, e.g. `"10,5"`), while
`.` is read as a decimal point (`"10.5"` is `10.5`); a character that is
neither digit, separator, nor operator terminates the current operand
AND overwrites the pending operator with none, so a stray character
before an operand or operator is harmless (`"10 +10"` is `20.0`) but a
stray character after an operator clears it (`"10 + 10"` and `"10+ 10"`
are evaluation errors). -/
theorem tokenizer_amended_spec :
    (∀ tok : List Char, goodToken tok → ',' ∈ tok →
      calcEvalL tok = .error .parseError) ∧
    calcEval ("10,5") = .error .parseError ∧
    calcEval ("10.5") = .ok (.fin (mkRat 21 2)) ∧
    calcEval ("10 +10") = .ok (.fin 20) ∧
    calcEval ("10 + 10") = .error .notExpected ∧
    calcEval ("10+ 10") = .error .notExpected := by
  refine ⟨?_, by decide, by decide, by decide, by decide, by decide⟩
  intro tok ht hc
  unfold calcEvalL
  rw [calc_foldlM_token tok ht none []]
  simp [calcFinish, parseNum_comma_none tok hc]

/-- Witness for `tokenizer_amended_spec`: the token `1,` contains a
comma, and evaluating it is a parse error. -/
theorem tokenizer_amended_spec_witness :
    calcEvalL ['1', ','] = .error .parseError :=
  tokenizer_amended_spec.1 ['1', ','] (by decide) (by decide)

/-- C6: at end of input `calc` succeeds on a single-operand expression
(`"10.1"` is `10.1`, `"10"` is `10.0`) and fails with an evaluation
error whenever an operator is left pending with no following operand
(any `a OP` input, e.g. `"10+"`). -/
theorem calc_end_of_input_spec :
    calcEval ("10.1") = .ok (.fin (mkRat 101 10)) ∧
    calcEval ("10") = .ok (.fin 10) ∧
    calcEval ("10+") = .error .notExpected ∧
    (∀ (ta : List Char) (c : Char) (p : Operator) (qa : ℚ),
      goodToken ta → parseNum ta = some qa → Operator.fromChar c = some p →
      calcEvalL (ta ++ [c]) = .error .notExpected) := by
  refine ⟨by decide, by decide, by decide, ?_⟩
  intro ta c p qa hta hpa hc
  obtain ⟨hd, h1, h2⟩ := fromChar_not_digit hc
  unfold calcEvalL
  rw [calc_foldlM_append _ _ _ _ (calc_foldlM_token ta hta none []),
    List.foldlM_cons, calcStep_flush _ _ _ _ _ hpa hd h1 h2, ok_bind, hc]
  simp [calcFinish, combine, calcFinal, pure_eq_ok]

/-- Witness for `calc_end_of_input_spec`: the dangling-operator input
`7+` produces the evaluation error. -/
theorem calc_end_of_input_spec_witness :
    calcEvalL (['7'] ++ ['+']) = .error .notExpected :=
  calc_end_of_input_spec.2.2.2 ['7'] '+' .add 7 (by decide) (by decide) (by decide)

/-- C7: division by zero is not an error: `calc("10/0")` succeeds with a
non-finite value (`+inf`), and in general any positive operand divided
by the literal `0` succeeds with `+inf`; there is no special-case error
branch for a zero divisor. -/
theorem calc_div_zero_spec :
    calcEval ("10/0") = .ok .posInf ∧
    EFloat.isFinite .posInf = false ∧
    (∀ (ta : List Char) (qa : ℚ), goodToken ta → parseNum ta = some qa → 0 < qa →
      calcEvalL (ta ++ '/' :: ['0']) = .ok .posInf) := by
  refine ⟨by decide, by decide, ?_⟩
  intro ta qa hta hpa hq
  unfold calcEvalL
  rw [calc_foldlM_append _ _ _ _ (calc_foldlM_token ta hta none []),
    List.foldlM_cons,
    calcStep_flush _ _ _ _ _ hpa (by decide) (by decide) (by decide), ok_bind]
  have hdiv : Operator.fromChar '/' = some Operator.div := by decide
  rw [hdiv, calc_foldlM_token ['0'] (by decide) (some .div) _]
  have h0 : parseNum ['0'] = some 0 := by decide
  simp [calcFinish, h0, combine, calcFinal, applyOp, EFloat.div, hq, hq.ne']

/-- Witness for `calc_div_zero_spec`: `2/0` succeeds with `+inf`. -/
theorem calc_div_zero_spec_witness :
    calcEvalL (['2'] ++ '/' :: ['0']) = .ok .posInf :=
  calc_div_zero_spec.2.2 ['2'] 2 (by decide) (by decide) (by decide)

/-- Rust `str::starts_with` with a string pattern: the pattern's
character sequence is a prefix of the receiver's. -/
def strStartsWith (s p : String) : Bool := p.data.isPrefixOf s.data

/-- The autocomplete memo struct `TitleCompleter` of src/app.rs: the
last queried input, the stored original-case names, and the memoized
suggestion list for that input. -/
structure TitleCompleter where
  input : String
  prev_titles : List String
  output : List String
deriving DecidableEq

/-- `TitleCompleter::new`: stores the titles; via `Default`, the memo
starts with input `""` and output `[]`. -/
def TitleCompleter.new (titles : List String) : TitleCompleter :=
  ⟨"", titles, []⟩

/-- `TitleCompleter::update_input`: if the input is unchanged since the
previous call, keep the memoized output; otherwise recompute the output
as the in-order prefix filter of the stored titles. -/
def TitleCompleter.update_input (tc : TitleCompleter) (i : String) : TitleCompleter :=
  if tc.input = i then tc
  else ⟨i, tc.prev_titles, tc.prev_titles.filter (fun t => strStartsWith t i)⟩

/-- `Autocomplete::get_suggestions` for `TitleCompleter`: update the
memo, then return (a clone of) the memoized output together with the
updated completer state. -/
def TitleCompleter.get_suggestions (tc : TitleCompleter) (i : String) :
    List String × TitleCompleter :=
  ((tc.update_input i).output, tc.update_input i)

/-- C8 counterexample: on a freshly constructed completer the claim
predicts that the empty prefix returns every stored name (every string
starts with `""`), but the constructor memoizes input `""` with output
`[]`, so the first empty-prefix query returns `[]` instead of the
filtered subsequence. -/
theorem suggestions_initial_empty_cex :
    ((TitleCompleter.new [("Taxi")]).get_suggestions ("")).1 = [] ∧
    [("Taxi")].filter (fun t => strStartsWith t ("")) = [("Taxi")] ∧
    ((TitleCompleter.new [("Taxi")]).get_suggestions ("")).1 ≠
      [("Taxi")].filter (fun t => strStartsWith t ("")) :=
  ⟨by decide, by decide, by decide⟩

/-- C8 amended: whenever the queried prefix differs from the memoized
input (in particular on every actual input change), `get_suggestions`
returns exactly the ordered, case-sensitive prefix filter of the stored
original-case names; and a repeated identical query returns the same
output with an unchanged completer state (no observable recomputation).
The single exception is the initial state, whose memo pretends the empty
prefix was already queried with an empty result. -/
theorem suggestions_amended_spec :
    (∀ (tc : TitleCompleter) (i : String), tc.input ≠ i →
      (tc.get_suggestions i).1 = tc.prev_titles.filter (fun t => strStartsWith t i)) ∧
    (∀ (tc : TitleCompleter) (i : String),
      ((tc.get_suggestions i).2.get_suggestions i) = tc.get_suggestions i) := by
  constructor
  · intro tc i h
    simp [TitleCompleter.get_suggestions, TitleCompleter.update_input, h]
  · intro tc i
    by_cases h : tc.input = i
    · simp [TitleCompleter.get_suggestions, TitleCompleter.update_input, h]
    · simp [TitleCompleter.get_suggestions, TitleCompleter.update_input, h]

/-- Witness for `suggestions_amended_spec`: querying `T` on a fresh
completer returns exactly the names starting with `T`, in order. -/
theorem suggestions_amended_spec_witness :
    ((TitleCompleter.new [("Taxi"), ("Tea"), ("Bus")]).get_suggestions ("T")).1 =
      [("Taxi"), ("Tea"), ("Bus")].filter (fun t => strStartsWith t ("T")) :=
  suggestions_amended_spec.1 (TitleCompleter.new [("Taxi"), ("Tea"), ("Bus")]) ("T")
    (by decide)

/-- Settings (src/settings.rs): the normalized lower-cased name →
category label map and the ordered, de-duplicated original-case name
list built from the configuration file. -/
structure Settings where
  normalized : List (String × String)
  original : List String
deriving DecidableEq

/-- `Settings::get`: case-insensitive lookup by lower-casing the key. -/
def Settings.get (s : Settings) (key : String) : Option String :=
  s.normalized.lookup key.toLower

/-- `Settings::list`: the stored original-case names. -/
def Settings.list (s : Settings) : List String := s.original

/-- A category page: its identifier and its optional display title. -/
structure Page where
  id : String
  title : Option String
deriving DecidableEq

/-- Schema entries (`PropertyConfiguration`): the kinds the record
builder recognizes, and `other` standing for every unrecognized kind. -/
inductive PropertyConfiguration where
  | title (id : String)
  | number (id : String)
  | date (id : String)
  | relation (id : String) (database_id : String)
  | other
deriving DecidableEq

/-- The database schema (`db.properties`): field name → entry. -/
def Schema : Type := String → Option PropertyConfiguration

/-- Field values (`PropertyValue`) as assembled into the record. -/
inductive PropertyValue where
  | title (id : String) (text : String)
  | number (id : String) (number : Option ℚ)
  | date (id : String) (start : Int)
  | relation (id : String) (page_id : String)
deriving DecidableEq

/-- `serde_json::Number::from_f64`: a JSON number for finite inputs,
`None` for NaN or infinite inputs (documented serde_json behavior). -/
def Number.from_f64 : EFloat → Option ℚ
  | .fin q => some q
  | _ => none

/-- Failures that abort a record-builder pass: a propagated `calc`
failure, a cancelled or failed prompt, or a Notion transport error. -/
inductive AppError where
  | calcError (e : CalcError)
  | cancelled
  | transport
deriving DecidableEq

/-- Week-start marker passed to the date prompt (`Weekday::Mon`). -/
inductive Weekday where
  | mon
deriving DecidableEq

/-- The observable configuration of one `DateSelect` prompt.  Calendar
dates are modelled as integers (days). -/
structure DatePromptArgs where
  default_date : Int
  min_date : Int
  max_date : Int
  week_start : Weekday
deriving DecidableEq

/-- The external collaborators' behavior during one loop iteration:
`today` is `Local::now().date_naive()`; the three prompt replies
(`none` = cancelled); the outcome of a category fetch if one happens
this iteration (`none` = transport failure, which `.ok()` turns into an
absent cache entry); the index the operator picks in the category list;
whether the create-record call succeeds; and the reply to the continue
prompt (`none` = prompt error, which breaks the loop). -/
structure IterInputs where
  today : Int
  nameInput : Option String
  amountInput : Option String
  dateChosen : Option Int
  fetchResult : Option (List Page)
  categoryChoice : Option Nat
  createOk : Bool
  continueAnswer : Option Bool
deriving DecidableEq

/-- The cross-iteration mutable state of `App`: the category directory
cache and the last chosen date. -/
structure AppState where
  categories_cache : Option (List Page)
  last_date : Option Int
deriving DecidableEq

/-- Externally observable effects of one record-builder pass: the
number of category-fetch invocations and the configuration of the date
prompt if one was shown. -/
structure IterTrace where
  fetchCount : Nat
  datePrompt : Option DatePromptArgs
deriving DecidableEq

/-- Display label of a category page (`title().unwrap_or("Untitled")`). -/
def pageDisplay (p : Page) : String := p.title.getD ("Untitled")

/-- The starting cursor of `select_page`: the position of the first
option whose display label equals the preselection hint. -/
def select_page_cursor (pages : List Page) (preselect : Option String) : Option Nat :=
  match preselect with
  | some ps => pages.findIdx? (fun p => pageDisplay p == ps)
  | none => none

/-- `select_page` from src/app.rs: the operator chooses one entry of
the option list (modelled by an index; `none` or an out-of-range index
models a cancelled or failed prompt, which is also the only possible
outcome of an empty option list); the chosen page's id is returned.
The starting cursor only positions the UI and does not affect which
page a given choice denotes. -/
def select_page (pages : List Page) (preselect : Option String) (choice : Option Nat) :
    Except AppError String :=
  let _pos := select_page_cursor pages preselect
  match choice with
  | none => .error .cancelled
  | some i =>
      match pages.get? i with
      | some p => .ok p.id
      | none => .error .cancelled

/-- The Name step of `create_page_properties`: if the schema has a
Title-kind entry at `"Name"`, prompt for text (offering the
autocomplete), build the title value from it, and look up the
preselection hint in the settings; any other kind (or no entry) is
skipped and the hint stays empty. -/
def nameStep (settings : Settings) (schema : Schema) (inp : IterInputs) :
    Except AppError (List (String × PropertyValue) × Option String) :=
  match schema ("Name") with
  | some (.title id) =>
      match inp.nameInput with
      | none => .error .cancelled
      | some name => .ok ([(("Name"), PropertyValue.title id name)], settings.get name)
  | _ => .ok ([], none)

/-- The Amount step: if the schema has a Number-kind entry at
`"Amount"`, prompt for text, evaluate it with `calc` (a failure aborts
the pass), and store the result through `Number.from_f64` (so a
non-finite result stores an absent payload). -/
def amountStep (schema : Schema) (inp : IterInputs) :
    Except AppError (List (String × PropertyValue)) :=
  match schema ("Amount") with
  | some (.number id) =>
      match inp.amountInput with
      | none => .error .cancelled
      | some s =>
          match calcEval s with
          | .error e => .error (.calcError e)
          | .ok v => .ok [(("Amount"), PropertyValue.number id (Number.from_f64 v))]
  | _ => .ok []

/-- The Date step: if the schema has a Date-kind entry at `"Date"`,
prompt with default = the last chosen date if any else today, range =
today minus 30 days through today inclusive, week starting Monday; the
chosen date is stored in the record and becomes the new session-wide
default. -/
def dateStep (schema : Schema) (inp : IterInputs) (last_date : Option Int) :
    (Except AppError (List (String × PropertyValue) × Option Int)) × Option DatePromptArgs :=
  match schema ("Date") with
  | some (.date id) =>
      let args : DatePromptArgs :=
        ⟨last_date.getD inp.today, inp.today - 30, inp.today, .mon⟩
      match inp.dateChosen with
      | none => (.error .cancelled, some args)
      | some d => (.ok ([(("Date"), PropertyValue.date id d)], some d), some args)
  | _ => (.ok ([], last_date), none)

/-- The Category step: if the schema has a Relation-kind entry at
`"Category"`, fetch the category list when the cache is empty, storing
`fetch().ok()` — so a FAILED fetch stores `none` again and the cache
stays unpopulated; then, when the cache holds a list, run `select_page`
and store the chosen relation; with no cached list the field is
silently skipped.  The returned number counts fetch invocations. -/
def categoryStep (schema : Schema) (inp : IterInputs) (cache : Option (List Page))
    (preselect : Option String) :
    (Except AppError (List (String × PropertyValue))) × Option (List Page) × Nat :=
  match schema ("Category") with
  | some (.relation id _dbid) =>
      let fetched : Option (List Page) × Nat :=
        match cache with
        | none => (inp.fetchResult, 1)
        | some pages => (some pages, 0)
      match fetched with
      | (some pages, n) =>
          (match select_page pages preselect inp.categoryChoice with
           | .error e => (.error e, some pages, n)
           | .ok pid => (.ok [(("Category"), PropertyValue.relation id pid)], some pages, n))
      | (none, n) => (.ok [], none, n)
  | _ => (.ok [], cache, 0)

/-- `create_page_properties` from src/app.rs: the four steps in their
fixed order; a failing step aborts the pass while keeping the state
mutations already made (the Rust method mutates `self` in place). -/
def create_page_properties (settings : Settings) (schema : Schema)
    (inp : IterInputs) (st : AppState) :
    (Except AppError (List (String × PropertyValue))) × AppState × IterTrace :=
  match nameStep settings schema inp with
  | .error e => (.error e, st, ⟨0, none⟩)
  | .ok (ps1, presel) =>
      match amountStep schema inp with
      | .error e => (.error e, st, ⟨0, none⟩)
      | .ok ps2 =>
          match dateStep schema inp st.last_date with
          | (.error e, dtr) => (.error e, st, ⟨0, dtr⟩)
          | (.ok (ps3, ld2), dtr) =>
              match categoryStep schema inp st.categories_cache presel with
              | (.error e, cache2, n) => (.error e, ⟨cache2, ld2⟩, ⟨n, dtr⟩)
              | (.ok ps4, cache2, n) =>
                  (.ok (ps1 ++ ps2 ++ ps3 ++ ps4), ⟨cache2, ld2⟩, ⟨n, dtr⟩)

/-- Where a session ends: the operator declined to continue (or the
continue prompt failed, which the `match` treats the same way), an error
propagated out of `App::run`, or the end of the modelled input script
while the loop would have continued. -/
inductive SessionOutcome where
  | done
  | failed (e : AppError)
  | outOfInputs
deriving DecidableEq

/-- Observable effects of a session: total category-fetch invocations,
every date-prompt configuration shown, and the records submitted to the
create-record collaborator. -/
structure SessionTrace where
  fetchCount : Nat
  datePrompts : List DatePromptArgs
  submitted : List (List (String × PropertyValue))
deriving DecidableEq

/-- The `loop` of `App::run`: build a record (a propagated error ends
the whole session as `failed`), submit it via the create-record
collaborator (whose failure also ends the session), then continue
exactly when the confirm prompt answers `true`. -/
def runSessionAux (settings : Settings) (schema : Schema) :
    List IterInputs → AppState → SessionTrace →
      SessionOutcome × AppState × SessionTrace
  | [], st, tr => (.outOfInputs, st, tr)
  | inp :: rest, st, tr =>
      match create_page_properties settings schema inp st with
      | (.error e, st2, itr) =>
          (.failed e, st2,
            ⟨tr.fetchCount + itr.fetchCount, tr.datePrompts ++ itr.datePrompt.toList,
              tr.submitted⟩)
      | (.ok props, st2, itr) =>
          let tr2 : SessionTrace :=
            ⟨tr.fetchCount + itr.fetchCount, tr.datePrompts ++ itr.datePrompt.toList,
              tr.submitted ++ [props]⟩
          if inp.createOk then
            match inp.continueAnswer with
            | some true => runSessionAux settings schema rest st2 tr2
            | _ => (.done, st2, tr2)
          else (.failed .transport, st2, tr2)

/-- `App::run`'s loop starting from the initial `App::new` state (empty
cache, no last date) and an empty trace. -/
def runSession (settings : Settings) (schema : Schema) (iters : List IterInputs) :
    SessionOutcome × AppState × SessionTrace :=
  runSessionAux settings schema iters ⟨none, none⟩ ⟨0, [], []⟩

/-- Empty settings fixture. -/
def settings0 : Settings := ⟨[], []⟩

/-- A schema holding only a Relation-kind entry at Category. -/
def schemaCat : Schema := fun k =>
  if k = "Category" then some (.relation ("cid") ("db1")) else none

/-- A schema holding only a Number-kind entry at Amount. -/
def schemaAmount : Schema := fun k =>
  if k = "Amount" then some (.number ("aid")) else none

/-- A schema holding only a Date-kind entry at Date. -/
def schemaDate : Schema := fun k =>
  if k = "Date" then some (.date ("did")) else none

theorem nameStep_ok_elim {settings : Settings} {schema : Schema} {inp : IterInputs}
    {ps1 : List (String × PropertyValue)} {presel : Option String}
    (h : nameStep settings schema inp = .ok (ps1, presel)) :
    (∃ id name, schema ("Name") = some (.title id) ∧ inp.nameInput = some name ∧
      ps1 = [(("Name"), PropertyValue.title id name)] ∧ presel = settings.get name) ∨
    ((∀ id, schema ("Name") ≠ some (.title id)) ∧ ps1 = [] ∧ presel = none) := by
  rcases hs : schema ("Name") with _ | pc
  · right
    simp only [nameStep, hs] at h
    cases h
    simp
  · cases pc with
    | title id =>
        left
        simp only [nameStep, hs] at h
        rcases hn : inp.nameInput with _ | name <;> rw [hn] at h
        · cases h
        · cases h
          exact ⟨id, name, rfl, rfl, rfl, rfl⟩
    | number id =>
        right
        simp only [nameStep, hs] at h
        cases h
        simp [hs]
    | date id =>
        right
        simp only [nameStep, hs] at h
        cases h
        simp [hs]
    | relation id dbid =>
        right
        simp only [nameStep, hs] at h
        cases h
        simp [hs]
    | other =>
        right
        simp only [nameStep, hs] at h
        cases h
        simp [hs]

theorem amountStep_ok_elim {schema : Schema} {inp : IterInputs}
    {ps2 : List (String × PropertyValue)}
    (h : amountStep schema inp = .ok ps2) :
    (∃ id s v, schema ("Amount") = some (.number id) ∧ inp.amountInput = some s ∧
      calcEval s = .ok v ∧
      ps2 = [(("Amount"), PropertyValue.number id (Number.from_f64 v))]) ∨
    ((∀ id, schema ("Amount") ≠ some (.number id)) ∧ ps2 = []) := by
  rcases hs : schema ("Amount") with _ | pc
  · right
    simp only [amountStep, hs] at h
    cases h
    simp
  · cases pc with
    | number id =>
        left
        simp only [amountStep, hs] at h
        rcases hn : inp.amountInput with _ | s
        · simp only [hn] at h
          cases h
        · simp only [hn] at h
          rcases hv : calcEval s with e | v
          · simp only [hv] at h
            cases h
          · simp only [hv] at h
            cases h
            exact ⟨id, s, v, rfl, rfl, hv, rfl⟩
    | title id =>
        right
        simp only [amountStep, hs] at h
        cases h
        simp [hs]
    | date id =>
        right
        simp only [amountStep, hs] at h
        cases h
        simp [hs]
    | relation id dbid =>
        right
        simp only [amountStep, hs] at h
        cases h
        simp [hs]
    | other =>
        right
        simp only [amountStep, hs] at h
        cases h
        simp [hs]

theorem dateStep_ok_elim {schema : Schema} {inp : IterInputs} {ld : Option Int}
    {ps3 : List (String × PropertyValue)} {ld2 : Option Int}
    {dtr : Option DatePromptArgs}
    (h : dateStep schema inp ld = (.ok (ps3, ld2), dtr)) :
    (∃ id d, schema ("Date") = some (.date id) ∧ inp.dateChosen = some d ∧
      ps3 = [(("Date"), PropertyValue.date id d)] ∧ ld2 = some d ∧
      dtr = some ⟨ld.getD inp.today, inp.today - 30, inp.today, .mon⟩) ∨
    ((∀ id, schema ("Date") ≠ some (.date id)) ∧ ps3 = [] ∧ ld2 = ld ∧ dtr = none) := by
  rcases hs : schema ("Date") with _ | pc
  · right
    simp only [dateStep, hs] at h
    cases h
    simp
  · cases pc with
    | date id =>
        left
        simp only [dateStep, hs] at h
        rcases hn : inp.dateChosen with _ | d <;> rw [hn] at h
        · cases h
        · cases h
          exact ⟨id, d, rfl, rfl, rfl, rfl, rfl⟩
    | title id =>
        right
        simp only [dateStep, hs] at h
        cases h
        simp [hs]
    | number id =>
        right
        simp only [dateStep, hs] at h
        cases h
        simp [hs]
    | relation id dbid =>
        right
        simp only [dateStep, hs] at h
        cases h
        simp [hs]
    | other =>
        right
        simp only [dateStep, hs] at h
        cases h
        simp [hs]

theorem categoryStep_ok_elim {schema : Schema} {inp : IterInputs}
    {cache : Option (List Page)} {presel : Option String}
    {ps4 : List (String × PropertyValue)} {cache2 : Option (List Page)} {n : Nat}
    (h : categoryStep schema inp cache presel = (.ok ps4, cache2, n)) :
    (∃ id dbid, schema ("Category") = some (.relation id dbid) ∧
      (match cache with | none => cache2 = inp.fetchResult ∧ n = 1
                        | some pages => cache2 = some pages ∧ n = 0) ∧
      ((∃ pages pid, cache2 = some pages ∧
          select_page pages presel inp.categoryChoice = .ok pid ∧
          ps4 = [(("Category"), PropertyValue.relation id pid)]) ∨
        (cache2 = none ∧ ps4 = []))) ∨
    ((∀ id dbid, schema ("Category") ≠ some (.relation id dbid)) ∧
      ps4 = [] ∧ cache2 = cache ∧ n = 0) := by
  rcases hs : schema ("Category") with _ | pc
  · right
    simp only [categoryStep, hs] at h
    cases h
    simp
  · cases pc with
    | relation id dbid =>
        left
        refine ⟨id, dbid, rfl, ?_⟩
        simp only [categoryStep, hs] at h
        cases cache with
        | none =>
            rcases hf : inp.fetchResult with _ | pages
            · simp only [hf] at h
              cases h
              exact ⟨⟨rfl, rfl⟩, Or.inr ⟨rfl, rfl⟩⟩
            · simp only [hf] at h
              rcases hsel : select_page pages presel inp.categoryChoice with e | pid
              · simp only [hsel] at h
                cases h
              · simp only [hsel] at h
                cases h
                exact ⟨⟨rfl, rfl⟩, Or.inl ⟨pages, pid, rfl, hsel, rfl⟩⟩
        | some pages =>
            rcases hsel : select_page pages presel inp.categoryChoice with e | pid
            · simp only [hsel] at h
              cases h
            · simp only [hsel] at h
              cases h
              exact ⟨⟨rfl, rfl⟩, Or.inl ⟨pages, pid, rfl, hsel, rfl⟩⟩
    | title id =>
        right
        simp only [categoryStep, hs] at h
        cases h
        simp [hs]
    | number id =>
        right
        simp only [categoryStep, hs] at h
        cases h
        simp [hs]
    | date id =>
        right
        simp only [categoryStep, hs] at h
        cases h
        simp [hs]
    | other =>
        right
        simp only [categoryStep, hs] at h
        cases h
        simp [hs]

theorem cpp_ok_elim {settings : Settings} {schema : Schema} {inp : IterInputs}
    {st : AppState} {props : List (String × PropertyValue)} {st2 : AppState}
    {itr : IterTrace}
    (h : create_page_properties settings schema inp st = (.ok props, st2, itr)) :
    ∃ ps1 presel ps2 ps3 ld2 dtr ps4 cache2 n,
      nameStep settings schema inp = .ok (ps1, presel) ∧
      amountStep schema inp = .ok ps2 ∧
      dateStep schema inp st.last_date = (.ok (ps3, ld2), dtr) ∧
      categoryStep schema inp st.categories_cache presel = (.ok ps4, cache2, n) ∧
      props = ps1 ++ ps2 ++ ps3 ++ ps4 ∧ st2 = ⟨cache2, ld2⟩ ∧ itr = ⟨n, dtr⟩ := by
  rcases hn : nameStep settings schema inp with e | ⟨ps1, presel⟩ <;>
    simp only [create_page_properties, hn] at h
  · cases h
  · rcases ha : amountStep schema inp with e | ps2 <;> simp only [ha] at h
    · cases h
    · rcases hd : dateStep schema inp st.last_date with ⟨dres, dtr⟩
      simp only [hd] at h
      rcases dres with e | ⟨ps3, ld2⟩
      · cases h
      · rcases hc : categoryStep schema inp st.categories_cache presel with ⟨cres, cache2, n⟩
        simp only [hc] at h
        rcases cres with e | ps4
        · cases h
        · cases h
          exact ⟨ps1, presel, ps2, ps3, ld2, dtr, ps4, cache2, n, rfl, rfl, rfl, hc,
            rfl, rfl, rfl⟩

theorem cpp_date_prompt (settings : Settings) (schema : Schema) (inp : IterInputs)
    (st : AppState) (did : String) (props : List (String × PropertyValue))
    (st2 : AppState) (itr : IterTrace)
    (hschema : schema ("Date") = some (.date did))
    (h : create_page_properties settings schema inp st = (.ok props, st2, itr)) :
    itr.datePrompt =
      some ⟨st.last_date.getD inp.today, inp.today - 30, inp.today, .mon⟩ ∧
    ∃ d, inp.dateChosen = some d ∧ st2.last_date = some d := by
  obtain ⟨ps1, presel, ps2, ps3, ld2, dtr, ps4, cache2, n, hn, ha, hd, hc,
    hprops, hst2, hitr⟩ := cpp_ok_elim h
  rcases dateStep_ok_elim hd with ⟨id, d, hs', hchosen, hps3, hld2, hdtr⟩ |
    ⟨hnone, hps3, hld2, hdtr⟩
  · subst hitr
    subst hst2
    subst hld2
    subst hdtr
    exact ⟨rfl, d, hchosen, rfl⟩
  · exact absurd hschema (hnone did)

/-- C9: whenever a record-builder pass completes and the schema has a
Date-kind entry at `"Date"`, the date prompt was configured with
default = the previously chosen date when one exists this run and today
otherwise, selectable range today minus 30 days through today
inclusive, week starting Monday; the chosen date becomes the new
session-wide default; consequently, for two consecutive passes the
second date prompt defaults to the first pass's chosen date, not to the
current date. -/
theorem date_default_spec :
    (∀ (settings : Settings) (schema : Schema) (inp : IterInputs) (st : AppState)
      (did : String) (props : List (String × PropertyValue)) (st2 : AppState)
      (itr : IterTrace),
      schema ("Date") = some (.date did) →
      create_page_properties settings schema inp st = (.ok props, st2, itr) →
      itr.datePrompt =
        some ⟨st.last_date.getD inp.today, inp.today - 30, inp.today, .mon⟩ ∧
      ∃ d, inp.dateChosen = some d ∧ st2.last_date = some d) ∧
    (∀ (settings : Settings) (schema : Schema) (inp1 inp2 : IterInputs)
      (st : AppState) (did : String)
      (p1 : List (String × PropertyValue)) (st2 : AppState) (t1 : IterTrace)
      (p2 : List (String × PropertyValue)) (st3 : AppState) (t2 : IterTrace)
      (d : Int),
      schema ("Date") = some (.date did) →
      create_page_properties settings schema inp1 st = (.ok p1, st2, t1) →
      create_page_properties settings schema inp2 st2 = (.ok p2, st3, t2) →
      inp1.dateChosen = some d →
      t2.datePrompt = some ⟨d, inp2.today - 30, inp2.today, .mon⟩) := by
  constructor
  · intro settings schema inp st did props st2 itr hschema h
    exact cpp_date_prompt settings schema inp st did props st2 itr hschema h
  · intro settings schema inp1 inp2 st did p1 st2 t1 p2 st3 t2 d hschema h1 h2 hd1
    obtain ⟨-, d', hd', hlast⟩ :=
      cpp_date_prompt settings schema inp1 st did p1 st2 t1 hschema h1
    obtain ⟨hp2, -⟩ :=
      cpp_date_prompt settings schema inp2 st2 did p2 st3 t2 hschema h2
    rw [hd1] at hd'
    cases hd'
    rw [hlast] at hp2
    simpa using hp2

/-- Witness for `date_default_spec`: a Date-only schema, today = 100,
the operator picks day 95; the prompt ran with default 100 (no previous
date), range 70..100, Monday start, and the session default becomes 95. -/
theorem date_default_spec_witness :
    (⟨0, some ⟨100, 70, 100, .mon⟩⟩ : IterTrace).datePrompt =
      some ⟨((⟨none, none⟩ : AppState)).last_date.getD 100, 100 - 30, 100, .mon⟩ ∧
    ∃ d, (⟨100, none, none, some 95, none, none, true, some false⟩ :
        IterInputs).dateChosen = some d ∧
      (⟨none, some 95⟩ : AppState).last_date = some d := by
  refine date_default_spec.1 settings0 schemaDate
    ⟨100, none, none, some 95, none, none, true, some false⟩ ⟨none, none⟩
    ("did") [(("Date"), PropertyValue.date ("did") 95)] ⟨none, some 95⟩
    ⟨0, some ⟨100, 70, 100, .mon⟩⟩ (by decide) (by decide)

/-- C10: when the schema has a Number-kind entry at `"Amount"` and the
evaluator succeeds with a non-finite value, the Amount step does not
fail: the Amount field is inserted with an absent numeric payload
(`Number::from_f64` returns `None` for non-finite inputs); in
particular a whole pass over an Amount-only schema with input `10/0`
completes with an Amount field whose payload is `none`. -/
theorem amount_nonfinite_null_spec :
    (∀ (schema : Schema) (inp : IterInputs) (aid : String) (s : String) (v : EFloat),
      schema ("Amount") = some (.number aid) → inp.amountInput = some s →
      calcEval s = .ok v → v.isFinite = false →
      amountStep schema inp = .ok [(("Amount"), PropertyValue.number aid none)]) ∧
    create_page_properties settings0 schemaAmount
      ⟨0, none, some ("10/0"), none, none, none, true, some false⟩ ⟨none, none⟩ =
      (.ok [(("Amount"), PropertyValue.number ("aid") none)], ⟨none, none⟩,
        ⟨0, none⟩) := by
  constructor
  · intro schema inp aid s v hs hi hv hnf
    have hff : Number.from_f64 v = none := by
      cases v with
      | fin q => simp [EFloat.isFinite] at hnf
      | posInf => rfl
      | negInf => rfl
      | nan => rfl
    simp [amountStep, hs, hi, hv, hff]
  · decide

/-- Witness for `amount_nonfinite_null_spec`: the Amount step on the
Amount-only schema with input `10/0` (which evaluates to `+inf`) stores
a payload-less Amount field. -/
theorem amount_nonfinite_null_spec_witness :
    amountStep schemaAmount
      ⟨0, none, some ("10/0"), none, none, none, true, some false⟩ =
      .ok [(("Amount"), PropertyValue.number ("aid") none)] :=
  amount_nonfinite_null_spec.1 schemaAmount
    ⟨0, none, some ("10/0"), none, none, none, true, some false⟩
    ("aid") ("10/0") .posInf (by decide) (by decide) (by decide) (by decide)

theorem categoryStep_cache_some (schema : Schema) (inp : IterInputs)
    (pages : List Page) (presel : Option String) :
    (categoryStep schema inp (some pages) presel).2.1 = some pages ∧
    (categoryStep schema inp (some pages) presel).2.2 = 0 := by
  unfold categoryStep
  rcases hs : schema ("Category") with _ | pc
  · exact ⟨rfl, rfl⟩
  · cases pc with
    | relation id dbid =>
        rcases hsel : select_page pages presel inp.categoryChoice with e | pid <;>
          simp [hsel]
    | title id => exact ⟨rfl, rfl⟩
    | number id => exact ⟨rfl, rfl⟩
    | date id => exact ⟨rfl, rfl⟩
    | other => exact ⟨rfl, rfl⟩

theorem cpp_cache_some (settings : Settings) (schema : Schema) (inp : IterInputs)
    (st : AppState) (pages : List Page) (h : st.categories_cache = some pages) :
    (create_page_properties settings schema inp st).2.1.categories_cache = some pages ∧
    (create_page_properties settings schema inp st).2.2.fetchCount = 0 := by
  simp only [create_page_properties]
  rcases hn : nameStep settings schema inp with e | ⟨ps1, presel⟩
  · exact ⟨h, rfl⟩
  · rcases ha : amountStep schema inp with e | ps2
    · exact ⟨h, rfl⟩
    · rcases hd : dateStep schema inp st.last_date with ⟨dres, dtr⟩
      rcases dres with e | ⟨ps3, ld2⟩
      · exact ⟨h, rfl⟩
      · have hcs := categoryStep_cache_some schema inp pages presel
        rw [h]
        rcases hc : categoryStep schema inp (some pages) presel with ⟨cres, cache2, n⟩
        rw [hc] at hcs
        obtain ⟨h1, h2⟩ := hcs
        simp only [] at h1 h2
        rcases cres with e | ps4 <;> simp [hc, h1, h2]

theorem runSessionAux_cache_some (settings : Settings) (schema : Schema)
    (iters : List IterInputs) :
    ∀ (st : AppState) (tr : SessionTrace) (pages : List Page),
      st.categories_cache = some pages →
      (runSessionAux settings schema iters st tr).2.2.fetchCount = tr.fetchCount ∧
      (runSessionAux settings schema iters st tr).2.1.categories_cache = some pages := by
  induction iters with
  | nil => intro st tr pages h; exact ⟨rfl, h⟩
  | cons inp rest ih =>
      intro st tr pages h
      have h2 := cpp_cache_some settings schema inp st pages h
      simp only [runSessionAux]
      rcases hc : create_page_properties settings schema inp st with ⟨res, st2, itr⟩
      rw [hc] at h2
      obtain ⟨h2c, h2n⟩ := h2
      simp only [] at h2c h2n
      rcases res with e | props
      · exact ⟨by simp [h2n], h2c⟩
      · cases hco : inp.createOk
        · simp only [hco, Bool.false_eq_true, if_false]
          exact ⟨by simp [h2n], h2c⟩
        · simp only [hco, if_true]
          rcases hca : inp.continueAnswer with _ | b
          · exact ⟨by simp [h2n], h2c⟩
          · cases b
            · exact ⟨by simp [h2n], h2c⟩
            · have hrec := ih st2
                ⟨tr.fetchCount + itr.fetchCount,
                  tr.datePrompts ++ itr.datePrompt.toList, tr.submitted ++ [props]⟩
                pages h2c
              refine ⟨?_, hrec.2⟩
              rw [hrec.1]
              simp [h2n]

theorem categoryStep_fetch_bound (schema : Schema) (inp : IterInputs)
    (presel : Option String) (cache : Option (List Page))
    (hf : inp.fetchResult ≠ none) :
    (categoryStep schema inp cache presel).2.2 +
      (if (categoryStep schema inp cache presel).2.1 = none then 1 else 0) ≤
      (if cache = none then 1 else 0) := by
  unfold categoryStep
  rcases hs : schema ("Category") with _ | pc
  · simp
  · cases pc with
    | relation id dbid =>
        cases cache with
        | none =>
            rcases hfr : inp.fetchResult with _ | pages
            · exact absurd hfr hf
            · rcases hsel : select_page pages presel inp.categoryChoice with e | pid <;>
                simp [hfr, hsel]
        | some pages =>
            rcases hsel : select_page pages presel inp.categoryChoice with e | pid <;>
              simp [hsel]
    | title id => simp
    | number id => simp
    | date id => simp
    | other => simp

theorem cpp_cases (settings : Settings) (schema : Schema) (inp : IterInputs)
    (st : AppState) :
    ∃ presel,
      ((create_page_properties settings schema inp st).2.1.categories_cache =
          (categoryStep schema inp st.categories_cache presel).2.1 ∧
        (create_page_properties settings schema inp st).2.2.fetchCount =
          (categoryStep schema inp st.categories_cache presel).2.2) ∨
      ((create_page_properties settings schema inp st).2.1.categories_cache =
          st.categories_cache ∧
        (create_page_properties settings schema inp st).2.2.fetchCount = 0) := by
  simp only [create_page_properties]
  rcases hn : nameStep settings schema inp with e | ⟨ps1, presel⟩
  · exact ⟨none, Or.inr ⟨rfl, rfl⟩⟩
  · refine ⟨presel, ?_⟩
    rcases ha : amountStep schema inp with e | ps2
    · exact Or.inr ⟨rfl, rfl⟩
    · rcases hd : dateStep schema inp st.last_date with ⟨dres, dtr⟩
      rcases dres with e | ⟨ps3, ld2⟩
      · exact Or.inr ⟨rfl, rfl⟩
      · left
        rcases hc : categoryStep schema inp st.categories_cache presel with ⟨cres, cache2, n⟩
        rcases cres with e | ps4 <;> simp [hc]

theorem cpp_fetch_bound (settings : Settings) (schema : Schema) (inp : IterInputs)
    (st : AppState) (hf : inp.fetchResult ≠ none) :
    (create_page_properties settings schema inp st).2.2.fetchCount +
      (if (create_page_properties settings schema inp st).2.1.categories_cache = none
        then 1 else 0) ≤
      (if st.categories_cache = none then 1 else 0) := by
  obtain ⟨presel, ⟨h1, h2⟩ | ⟨h1, h2⟩⟩ := cpp_cases settings schema inp st
  · simp only [h1, h2]
    exact categoryStep_fetch_bound schema inp presel st.categories_cache hf
  · simp only [h1, h2]
    simp

theorem runSessionAux_fetch_bound (settings : Settings) (schema : Schema)
    (iters : List IterInputs) :
    ∀ (st : AppState) (tr : SessionTrace),
      (∀ inp ∈ iters, inp.fetchResult ≠ none) →
      (runSessionAux settings schema iters st tr).2.2.fetchCount ≤
        tr.fetchCount + (if st.categories_cache = none then 1 else 0) := by
  induction iters with
  | nil =>
      intro st tr h
      simp only [runSessionAux]
      exact Nat.le_add_right _ _
  | cons inp rest ih =>
      intro st tr h
      have hf : inp.fetchResult ≠ none := h inp (by simp)
      have hb := cpp_fetch_bound settings schema inp st hf
      simp only [runSessionAux]
      rcases hc : create_page_properties settings schema inp st with ⟨res, st2, itr⟩
      rw [hc] at hb
      simp only [] at hb
      have hle : itr.fetchCount ≤ (if st.categories_cache = none then 1 else 0) :=
        le_trans (Nat.le_add_right _ _) hb
      rcases res with e | props
      · simpa using Nat.add_le_add_left hle tr.fetchCount
      · cases hco : inp.createOk
        · simp only [hco, Bool.false_eq_true, if_false]
          simpa using Nat.add_le_add_left hle tr.fetchCount
        · simp only [hco, if_true]
          rcases hca : inp.continueAnswer with _ | b
          · simpa using Nat.add_le_add_left hle tr.fetchCount
          · cases b
            · simpa using Nat.add_le_add_left hle tr.fetchCount
            · have hrec := ih st2
                ⟨tr.fetchCount + itr.fetchCount,
                  tr.datePrompts ++ itr.datePrompt.toList, tr.submitted ++ [props]⟩
                (fun i hi => h i (by simp [hi]))
              refine le_trans hrec ?_
              simp only []
              calc tr.fetchCount + itr.fetchCount +
                    (if st2.categories_cache = none then 1 else 0) =
                  tr.fetchCount +
                    (itr.fetchCount + (if st2.categories_cache = none then 1 else 0)) := by
                    omega
                _ ≤ tr.fetchCount + (if st.categories_cache = none then 1 else 0) :=
                    Nat.add_le_add_left hb tr.fetchCount

/-- C2 counterexample: with a Category-only schema and a fetch
collaborator that fails, two Category steps in one session invoke the
fetch collaborator twice: the failure outcome is NOT cached (the Rust
code stores `fetch().ok()`, i.e. `None` on failure, and `None` is
indistinguishable from "never fetched", so the next Category step
fetches again), contradicting "at most once, whether it succeeded or
failed". -/
theorem category_cache_refetch_cex :
    ¬ ((runSession settings0 schemaCat
        [⟨0, none, none, none, none, none, true, some true⟩,
         ⟨0, none, none, none, none, none, true, some false⟩]).2.2.fetchCount ≤ 1) := by
  decide

/-- C2 amended: the cache is single-flight only for a SUCCESSFUL first
fetch.  Once the cache is populated (holds `some` list), no later
iteration ever fetches again and the cached list is reused unchanged
for the rest of the session; and when every fetch attempt in the
session succeeds, the fetch collaborator runs at most once.  A failed
fetch, however, is not cached and a later Category step retries
(`category_cache_refetch_cex`). -/
theorem category_cache_single_flight_amended :
    (∀ (settings : Settings) (schema : Schema) (iters : List IterInputs)
      (st : AppState) (tr : SessionTrace) (pages : List Page),
      st.categories_cache = some pages →
      (runSessionAux settings schema iters st tr).2.2.fetchCount = tr.fetchCount ∧
      (runSessionAux settings schema iters st tr).2.1.categories_cache = some pages) ∧
    (∀ (settings : Settings) (schema : Schema) (iters : List IterInputs),
      (∀ inp ∈ iters, inp.fetchResult ≠ none) →
      (runSession settings schema iters).2.2.fetchCount ≤ 1) := by
  constructor
  · intro settings schema iters st tr pages h
    exact runSessionAux_cache_some settings schema iters st tr pages h
  · intro settings schema iters hsucc
    have h := runSessionAux_fetch_bound settings schema iters ⟨none, none⟩ ⟨0, [], []⟩ hsucc
    simpa using h

/-- Witness for `category_cache_single_flight_amended`: a session whose
cache is already populated performs zero fetches over a further
iteration and keeps the cached list. -/
theorem category_cache_single_flight_amended_witness :
    (runSessionAux settings0 schemaCat
      [⟨0, none, none, none, none, some 0, true, some false⟩]
      ⟨some [⟨"p1", none⟩], none⟩ ⟨0, [], []⟩).2.2.fetchCount = 0 ∧
    (runSessionAux settings0 schemaCat
      [⟨0, none, none, none, none, some 0, true, some false⟩]
      ⟨some [⟨"p1", none⟩], none⟩ ⟨0, [], []⟩).2.1.categories_cache =
      some [⟨"p1", none⟩] :=
  category_cache_single_flight_amended.1 settings0 schemaCat
    [⟨0, none, none, none, none, some 0, true, some false⟩]
    ⟨some [⟨"p1", none⟩], none⟩ ⟨0, [], []⟩ [⟨"p1", none⟩] rfl

theorem cpp_amount_error (settings : Settings) (schema : Schema) (inp : IterInputs)
    (st : AppState) (aid : String) (s : String) (e : CalcError)
    (hname : ∀ id, schema ("Name") = some (.title id) → inp.nameInput ≠ none)
    (hs : schema ("Amount") = some (.number aid))
    (hin : inp.amountInput = some s) (he : calcEval s = .error e) :
    create_page_properties settings schema inp st =
      (.error (.calcError e), st, ⟨0, none⟩) := by
  have hn : ∃ pr, nameStep settings schema inp = .ok pr := by
    unfold nameStep
    rcases hsn : schema ("Name") with _ | pc
    · exact ⟨_, rfl⟩
    · cases pc with
      | title id =>
          rcases hni : inp.nameInput with _ | name
          · exact absurd hni (hname id hsn)
          · exact ⟨_, rfl⟩
      | number id => exact ⟨_, rfl⟩
      | date id => exact ⟨_, rfl⟩
      | relation id dbid => exact ⟨_, rfl⟩
      | other => exact ⟨_, rfl⟩
  obtain ⟨⟨ps1, presel⟩, hnok⟩ := hn
  have ham : amountStep schema inp = .error (.calcError e) := by
    simp [amountStep, hs, hin, he]
  simp [create_page_properties, hnok, ham]

/-- C3 amended: a parse or evaluation failure of the Amount expression
aborts the current record with no partial submission — but it does NOT
merely abort the current record: the error propagates out of the loop
(`?` in `App::run`), so the whole session terminates as failed, the
state is left unchanged and no further iteration runs; the operator
cannot retry within the same session. -/
theorem amount_error_propagates_amended :
    ∀ (settings : Settings) (schema : Schema) (inp : IterInputs)
      (rest : List IterInputs) (st : AppState) (tr : SessionTrace)
      (aid : String) (s : String) (e : CalcError),
      (∀ id, schema ("Name") = some (.title id) → inp.nameInput ≠ none) →
      schema ("Amount") = some (.number aid) →
      inp.amountInput = some s → calcEval s = .error e →
      (runSessionAux settings schema (inp :: rest) st tr).1 =
        .failed (.calcError e) ∧
      (runSessionAux settings schema (inp :: rest) st tr).2.2.submitted =
        tr.submitted ∧
      (runSessionAux settings schema (inp :: rest) st tr).2.1 = st := by
  intro settings schema inp rest st tr aid s e hname hs hin he
  have h := cpp_amount_error settings schema inp st aid s e hname hs hin he
  simp [runSessionAux, h]

/-- C3 counterexample: with an Amount-only schema, a malformed amount
(`10+`) in the first iteration makes the whole session fail immediately
(outcome `failed`, nothing submitted) even though the operator's script
would have continued with a well-formed retry; the session does not
remain able to continue, contradicting the claim. -/
theorem amount_error_aborts_session_cex :
    (runSession settings0 schemaAmount
      [⟨0, none, some ("10+"), none, none, none, true, some true⟩,
       ⟨0, none, some ("10"), none, none, none, true, some true⟩]).1 =
      .failed (.calcError .notExpected) ∧
    (runSession settings0 schemaAmount
      [⟨0, none, some ("10+"), none, none, none, true, some true⟩,
       ⟨0, none, some ("10"), none, none, none, true, some true⟩]).2.2.submitted =
      [] :=
  ⟨by decide, by decide⟩

/-- Witness for `amount_error_propagates_amended`: the session with the
malformed amount `10+` fails with the evaluation error, submits nothing
and leaves the state untouched. -/
theorem amount_error_propagates_amended_witness :
    (runSessionAux settings0 schemaAmount
      [⟨0, none, some ("10+"), none, none, none, true, some true⟩] ⟨none, none⟩
      ⟨0, [], []⟩).1 = .failed (.calcError .notExpected) ∧
    (runSessionAux settings0 schemaAmount
      [⟨0, none, some ("10+"), none, none, none, true, some true⟩] ⟨none, none⟩
      ⟨0, [], []⟩).2.2.submitted = ([] : List (List (String × PropertyValue))) ∧
    (runSessionAux settings0 schemaAmount
      [⟨0, none, some ("10+"), none, none, none, true, some true⟩] ⟨none, none⟩
      ⟨0, [], []⟩).2.1 = (⟨none, none⟩ : AppState) :=
  amount_error_propagates_amended settings0 schemaAmount
    ⟨0, none, some ("10+"), none, none, none, true, some true⟩ [] ⟨none, none⟩
    ⟨0, [], []⟩ ("aid") ("10+") .notExpected
    (by intro id h; simp [schemaAmount] at h) (by decide) (by decide) (by decide)

/-- C4 counterexample: a completed pass over a Category-only schema
whose category fetch failed produces a record WITHOUT the Category
field even though the schema entry at that name is of a recognized
kind, refuting the claimed "if and only if". -/
theorem record_fields_iff_cex :
    create_page_properties settings0 schemaCat
      ⟨0, none, none, none, none, none, true, some false⟩ ⟨none, none⟩ =
      (.ok [], ⟨none, none⟩, ⟨1, none⟩) ∧
    schemaCat ("Category") = some (.relation ("cid") ("db1")) ∧
    ¬ ∃ v, (("Category"), v) ∈ ([] : List (String × PropertyValue)) :=
  ⟨by decide, by decide, by simp⟩

/-- C4 amended: in every completed record-builder pass, the record
contains a field at `"Name"`, `"Amount"` or `"Date"` exactly when the
schema's entry at that name is of the recognized kind (Title, Number,
Date respectively); it contains a field at `"Category"` exactly when
the schema's entry there is Relation-kind AND the category cache ended
the pass populated (a failed fetch silently skips the field); no other
field names appear, and unrecognized kinds are silently skipped rather
than causing an error. -/
theorem record_fields_iff_amended :
    ∀ (settings : Settings) (schema : Schema) (inp : IterInputs) (st : AppState)
      (props : List (String × PropertyValue)) (st2 : AppState) (itr : IterTrace),
      create_page_properties settings schema inp st = (.ok props, st2, itr) →
      ((∃ v, (("Name"), v) ∈ props) ↔ (∃ id, schema ("Name") = some (.title id))) ∧
      ((∃ v, (("Amount"), v) ∈ props) ↔
        (∃ id, schema ("Amount") = some (.number id))) ∧
      ((∃ v, (("Date"), v) ∈ props) ↔ (∃ id, schema ("Date") = some (.date id))) ∧
      ((∃ v, (("Category"), v) ∈ props) ↔
        ((∃ id dbid, schema ("Category") = some (.relation id dbid)) ∧
          st2.categories_cache ≠ none)) ∧
      (∀ k v, (k, v) ∈ props →
        k = "Name" ∨ k = "Amount" ∨ k = "Date" ∨ k = "Category") := by
  intro settings schema inp st props st2 itr h
  obtain ⟨ps1, presel, ps2, ps3, ld2, dtr, ps4, cache2, n, hn, ha, hd, hc,
    hprops, hst2, hitr⟩ := cpp_ok_elim h
  subst hprops
  subst hst2
  rcases nameStep_ok_elim hn with ⟨id1, name, hs1, -, hps1, -⟩ | ⟨hs1, hps1, -⟩ <;>
    subst hps1
  all_goals rcases amountStep_ok_elim ha with ⟨id2, s2, v2, hs2, -, -, hps2⟩ |
    ⟨hs2, hps2⟩
  all_goals subst hps2
  all_goals rcases dateStep_ok_elim hd with ⟨id3, d3, hs3, -, hps3, -, -⟩ |
    ⟨hs3, hps3, -, -⟩
  all_goals subst hps3
  all_goals rcases categoryStep_ok_elim hc with
    ⟨id4, dbid4, hs4, -, ⟨pages, pid, hc2, -, hps4⟩ | ⟨hc2, hps4⟩⟩ |
    ⟨hs4, hps4, hcac, -⟩
  all_goals subst hps4
  all_goals try subst hc2
  all_goals try subst hcac
  all_goals simp_all [List.mem_append, Prod.mk.injEq]
  all_goals tauto

/-- Witness for `record_fields_iff_amended`: a completed pass over the
Amount-only schema yields a record with exactly the Amount field. -/
theorem record_fields_iff_amended_witness :
    ((∃ v, (("Name"), v) ∈ [(("Amount"), PropertyValue.number ("aid") (some 10))]) ↔
      (∃ id, schemaAmount ("Name") = some (.title id))) ∧
    ((∃ v, (("Amount"), v) ∈ [(("Amount"), PropertyValue.number ("aid") (some 10))]) ↔
      (∃ id, schemaAmount ("Amount") = some (.number id))) ∧
    ((∃ v, (("Date"), v) ∈ [(("Amount"), PropertyValue.number ("aid") (some 10))]) ↔
      (∃ id, schemaAmount ("Date") = some (.date id))) ∧
    ((∃ v, (("Category"), v) ∈
        [(("Amount"), PropertyValue.number ("aid") (some 10))]) ↔
      ((∃ id dbid, schemaAmount ("Category") = some (.relation id dbid)) ∧
        (⟨none, none⟩ : AppState).categories_cache ≠ none)) ∧
    (∀ k v, (k, v) ∈ [(("Amount"), PropertyValue.number ("aid") (some 10))] →
      k = "Name" ∨ k = "Amount" ∨ k = "Date" ∨ k = "Category") :=
  record_fields_iff_amended settings0 schemaAmount
    ⟨0, none, some ("10"), none, none, none, true, some false⟩ ⟨none, none⟩
    [(("Amount"), PropertyValue.number ("aid") (some 10))] ⟨none, none⟩ ⟨0, none⟩
    (by decide)
